import Mathlib

/-!
Verification of the file-traversal and text-classification substrate of the
Script-Toolkit repository (`llm_context/toolbelt.py`): the constants
`DEFAULT_EXCLUDE_DIRS`, the classifier `is_binary_bytes`, the bounded reader
`read_text_safe`, the traversal `iter_files`, and the report sink
(`report_path` / `write_text`).

Modelling conventions:
* Bytes are `Nat` values (real byte strings only hold values `< 256`; the
  definitions are total over all of `Nat` like the Python functions are total
  over `bytes`).
* A file that can be read without any filesystem error is `some data`
  (its size is `data.length`); `none` stands for any filesystem-level failure
  (permission denied, vanished file, I/O error), which the Python code turns
  into `None` through its blanket `except`.
* The float comparison `float(len(nontext)) / max(1, len(chunk)) > 0.30` is
  embedded as the exact rational comparison `10 * n > 3 * max 1 d`.  For IEEE
  double arithmetic the two agree for every denominator `d < 2 ^ 51` (the
  double nearest `0.30` lies `~1.1e-17` below `3/10`, and the correctly
  rounded division of Nats below `2 ^ 51` is within `2.8e-17` of the exact
  quotient near `0.3`), which covers every byte string representable in
  memory; in the program the sample is at most 1024 bytes.
* The directory tree handed to `os.walk` is an explicit inductive tree;
  `os.walk` is embedded top-down exactly as `iter_files` consumes it: the
  files of a directory are yielded first, then the (pruned) subdirectories
  are walked in order.  A nonexistent root is `none`: with its default
  `onerror=None`, `os.walk` swallows the `scandir` error of a missing root
  and yields nothing.
-/

/-- The module constant `DEFAULT_EXCLUDE_DIRS` of `toolbelt.py`. -/
def DEFAULT_EXCLUDE_DIRS : List String :=
  [".git", "node_modules", ".venv", "venv", "dist", "build", "__pycache__",
   ".idea", ".vscode", ".pytest_cache", ".mypy_cache"]

/-- `d.startswith('.')`: the name's first character is a dot (embedded on
the character list so it evaluates by kernel reduction). -/
def startsWithDot (d : String) : Bool :=
  match d.data with
  | [] => false
  | c :: _ => c = '.'

/-- The pruning condition of `iter_files`
(`d not in DEFAULT_EXCLUDE_DIRS and not d.startswith('.')`):
`true` means the walk descends into the directory. -/
def shouldDescend (d : String) : Bool :=
  !(DEFAULT_EXCLUDE_DIRS.contains d) && !(startsWithDot d)

/-- `text_characters` of `is_binary_bytes`:
`bytearray({7, 8, 9, 10, 12, 13, 27} | set(range(0x20, 0x100)))`. -/
def text_characters : List Nat :=
  [7, 8, 9, 10, 12, 13, 27] ++ List.range' 0x20 0xE0

/-- `is_binary_bytes(chunk)`: a null byte makes the chunk binary; otherwise
`chunk.translate(None, text_characters)` deletes every byte of
`text_characters` and the chunk is binary when
`float(len(nontext)) / max(1, len(chunk)) > 0.30` (embedded exactly as
`10 * len(nontext) > 3 * max(1, len(chunk))`). -/
def is_binary_bytes (chunk : List Nat) : Bool :=
  if chunk.contains 0 then
    true
  else
    let nontext := chunk.filter (fun b => !(text_characters.contains b))
    decide (10 * nontext.length > 3 * max 1 chunk.length)

/-- The replacement character U+FFFD produced by `errors="replace"`. -/
def replacementChar : Char := Char.ofNat 0xFFFD

/-- A UTF-8 continuation byte. -/
def isCont (b : Nat) : Bool := decide (0x80 ≤ b ∧ b < 0xC0)

/-- CPython's UTF-8 decoder with `errors="replace"`: each maximal subpart of
an ill-formed sequence becomes one U+FFFD.  Valid lead bytes are
`0x00–0x7F`, `0xC2–0xF4`; the first continuation byte is range-restricted
after `0xE0`, `0xED`, `0xF0` and `0xF4` to exclude overlong forms,
surrogates and values above U+10FFFF. -/
def utf8DecodeReplace : List Nat → List Char
  | [] => []
  | b :: rest =>
    if b < 0x80 then Char.ofNat b :: utf8DecodeReplace rest
    else if b < 0xC2 then replacementChar :: utf8DecodeReplace rest
    else if b < 0xE0 then
      match rest with
      | [] => [replacementChar]
      | b1 :: rest1 =>
        if isCont b1 then
          Char.ofNat ((b - 0xC0) * 64 + (b1 - 0x80)) :: utf8DecodeReplace rest1
        else replacementChar :: utf8DecodeReplace (b1 :: rest1)
    else if b < 0xF0 then
      match rest with
      | [] => [replacementChar]
      | b1 :: rest1 =>
        if (if b = 0xE0 then decide (0xA0 ≤ b1 ∧ b1 < 0xC0)
            else if b = 0xED then decide (0x80 ≤ b1 ∧ b1 < 0xA0)
            else isCont b1) then
          match rest1 with
          | [] => [replacementChar]
          | b2 :: rest2 =>
            if isCont b2 then
              Char.ofNat ((b - 0xE0) * 4096 + (b1 - 0x80) * 64 + (b2 - 0x80)) ::
                utf8DecodeReplace rest2
            else replacementChar :: utf8DecodeReplace (b2 :: rest2)
        else replacementChar :: utf8DecodeReplace (b1 :: rest1)
    else if b < 0xF5 then
      match rest with
      | [] => [replacementChar]
      | b1 :: rest1 =>
        if (if b = 0xF0 then decide (0x90 ≤ b1 ∧ b1 < 0xC0)
            else if b = 0xF4 then decide (0x80 ≤ b1 ∧ b1 < 0x90)
            else isCont b1) then
          match rest1 with
          | [] => [replacementChar]
          | b2 :: rest2 =>
            if isCont b2 then
              match rest2 with
              | [] => [replacementChar]
              | b3 :: rest3 =>
                if isCont b3 then
                  Char.ofNat ((b - 0xF0) * 262144 + (b1 - 0x80) * 4096 +
                      (b2 - 0x80) * 64 + (b3 - 0x80)) :: utf8DecodeReplace rest3
                else replacementChar :: utf8DecodeReplace (b3 :: rest3)
            else replacementChar :: utf8DecodeReplace (b2 :: rest2)
        else replacementChar :: utf8DecodeReplace (b1 :: rest1)
    else replacementChar :: utf8DecodeReplace rest

/-- UTF-8 encoding of one scalar value (what Python writes for one `str`
character in a file opened with `encoding="utf-8"`). -/
def utf8EncodeChar (c : Char) : List Nat :=
  let n := c.toNat
  if n < 0x80 then [n]
  else if n < 0x800 then [0xC0 + n / 64, 0x80 + n % 64]
  else if n < 0x10000 then
    [0xE0 + n / 4096, 0x80 + (n / 64) % 64, 0x80 + n % 64]
  else
    [0xF0 + n / 262144, 0x80 + (n / 4096) % 64, 0x80 + (n / 64) % 64,
     0x80 + n % 64]

/-- UTF-8 encoding of a string. -/
def utf8Encode (s : String) : List Nat :=
  (s.data.map utf8EncodeChar).flatten

/-- `read_text_safe(path, max_bytes=2_000_000)`.  The file at `path` is
modelled as `none` when any filesystem operation on it fails (the blanket
`except` of the source turns that into `None`), and `some data` when it
holds bytes `data`; then `os.path.getsize` is `data.length` and the size
check, the binary sniff of the first 1024 bytes, and the tolerant UTF-8
decode follow the source line by line. -/
def read_text_safe (file : Option (List Nat)) (max_bytes : Nat := 2000000) :
    Option String :=
  match file with
  | none => none
  | some data =>
    if data.length > max_bytes then none
    else if is_binary_bytes (data.take 1024) then none
    else some (String.mk (utf8DecodeReplace data))

/-- `os.path.splitext` on a base name: index of the last `.`, if any. -/
def lastDotIdx : List Char → Option Nat
  | [] => none
  | c :: rest =>
    match lastDotIdx rest with
    | some i => some (i + 1)
    | none => if c = '.' then some 0 else none

/-- The extension component `os.path.splitext(name)[1]` for a base name
(no path separators): the suffix starting at the last dot, provided some
character strictly before that dot is not itself a dot (so `".gitignore"`
has no extension). -/
def splitextExt (name : String) : String :=
  let cs := name.data
  match lastDotIdx cs with
  | none => ""
  | some i =>
    if (cs.take i).any (fun c => c ≠ '.') then String.mk (cs.drop i) else ""

/-- The file filter of `iter_files`: with `include_exts = None` every file
qualifies; otherwise the file qualifies iff
`os.path.splitext(name)[1].lower()` is a member of `include_exts`. -/
def fileQualifies (include_exts : Option (List String)) (name : String) :
    Bool :=
  match include_exts with
  | none => true
  | some exts => exts.contains (splitextExt name).toLower

mutual

/-- A directory of the filesystem handed to `os.walk`: the base names of its
regular files and its subdirectories. -/
inductive FSTree : Type where
  | node : List String → FSDirs → FSTree

/-- The subdirectory list of a directory: base name and subtree, in the
order `os.scandir` reports them. -/
inductive FSDirs : Type where
  | nil : FSDirs
  | cons : String → FSTree → FSDirs → FSDirs

end

/-- An entry yielded by `iter_files`, as its relative path: the directory
components between the scan root and the file (`e.1`) and the file's base
name (`e.2`).  The absolute path of the source's `(full, rel)` pair is the
root joined with these same components, so the relative path determines
the entry. -/
abbrev Entry : Type := List String × String

/-- The `for name in files` loop of `iter_files`: each qualifying file is
yielded with an empty directory prefix (relative to the current directory). -/
def walkFiles (incl : Option (List String)) : List String → List Entry
  | [] => []
  | n :: rest =>
    (if fileQualifies incl n then [(([] : List String), n)] else []) ++
      walkFiles incl rest

mutual

/-- One `os.walk` step of `iter_files` at a directory: the directory's files
are examined first (in order), then the pruned subdirectories are walked. -/
def walkTree (incl : Option (List String)) : FSTree → List Entry
  | .node files dirs => walkFiles incl files ++ walkDirs incl dirs
termination_by structural t => t

/-- The recursion of `os.walk` over the pruned subdirectory list
(`dirs[:] = [d for d in dirs if d not in DEFAULT_EXCLUDE_DIRS and not
d.startswith('.')]`): a pruned directory contributes nothing; a kept
directory contributes its walk, with its name prefixed to every entry. -/
def walkDirs (incl : Option (List String)) : FSDirs → List Entry
  | .nil => []
  | .cons d t rest =>
    (if shouldDescend d then (walkTree incl t).map (fun e => (d :: e.1, e.2))
     else []) ++ walkDirs incl rest
termination_by structural ds => ds

end

/-- `iter_files(base, include_exts)`: the scan root is `none` when `base`
does not exist as a directory (with its default `onerror=None`, `os.walk`
swallows the `scandir` error and yields nothing), and `some t` when it is
the directory tree `t`. -/
def iter_files (root : Option FSTree) (include_exts : Option (List String)) :
    List Entry :=
  match root with
  | none => []
  | some t => walkTree include_exts t

/-- `ensure_out_dir()`: the output directory `context_out` under the current
working directory (directory creation is idempotent and does not affect file
contents, so only the resulting path is modelled). -/
def ensure_out_dir (cwd : String) : String :=
  cwd ++ "/context_out"

/-- `report_path(name, ext="md")`: `{out_dir}/{name}_{stamp}.{ext}` where
`stamp` is `now_stamp()`, the wall-clock timestamp, passed here explicitly
since it is read from the environment. -/
def report_path (name : String) (ext : String) (cwd : String)
    (stamp : String) : String :=
  ensure_out_dir cwd ++ "/" ++ name ++ "_" ++ stamp ++ "." ++ ext

/-- `write_text(path, content)`: the file store maps a path to the bytes
stored there (`none` = no file).  Opening with `mode="w"`,
`encoding="utf-8"`, `newline="\n"` truncates the file and writes the UTF-8
encoding of `content`, with `"\n"` disabling newline translation so each
`\n` of `content` is stored as the single byte `0x0A`. -/
def write_text (fs : String → Option (List Nat)) (path : String)
    (content : String) : String → Option (List Nat) :=
  fun p => if p = path then some (utf8Encode content) else fs p

/-- The byte predicate named by the specification: membership in
`{7, 8, 9, 10, 12, 13, 27} ∪ [0x20, 0xFF]`. -/
def specTextByte (b : Nat) : Bool :=
  decide (b = 7 ∨ b = 8 ∨ b = 9 ∨ b = 10 ∨ b = 12 ∨ b = 13 ∨ b = 27 ∨
    (0x20 ≤ b ∧ b ≤ 0xFF))

theorem mem_text_characters (b : Nat) :
    b ∈ text_characters ↔
      (b = 7 ∨ b = 8 ∨ b = 9 ∨ b = 10 ∨ b = 12 ∨ b = 13 ∨ b = 27 ∨
        (0x20 ≤ b ∧ b ≤ 0xFF)) := by
  simp only [text_characters, List.mem_append, List.mem_cons,
    List.not_mem_nil, or_false, List.mem_range'_1]
  omega

theorem contains_text_eq (b : Nat) :
    text_characters.contains b = specTextByte b := by
  have h1 : text_characters.contains b = true ↔ b ∈ text_characters :=
    List.elem_iff
  rw [Bool.eq_iff_iff, h1, mem_text_characters b]
  simp [specTextByte]

theorem filter_nontext_eq (chunk : List Nat) :
    chunk.filter (fun b => !(text_characters.contains b)) =
      chunk.filter (fun b => !specTextByte b) := by
  apply List.filter_congr
  intro b _
  rw [contains_text_eq]

/-- **C2**: `is_binary_bytes` returns `true` iff the sample contains a null
byte or the fraction of its bytes lying outside
`{7, 8, 9, 10, 12, 13, 27} ∪ [0x20, 0xFF]` exceeds `0.30`; it is total (it
is a Lean function), and on the empty sample it returns `false`. -/
theorem is_binary_bytes_spec :
    (∀ chunk : List Nat,
      (is_binary_bytes chunk = true ↔
        0 ∈ chunk ∨
          (3 : ℚ) / 10 <
            ((chunk.countP fun b => !specTextByte b : Nat) : ℚ) /
              ((max 1 chunk.length : Nat) : ℚ))) ∧
    is_binary_bytes [] = false := by
  constructor
  · intro chunk
    unfold is_binary_bytes
    by_cases h0 : 0 ∈ chunk
    · have hc : chunk.contains 0 = true := List.elem_iff.mpr h0
      rw [hc]
      simp [h0]
    · have hc : chunk.contains 0 = false := by
        rw [Bool.eq_false_iff]
        intro hcc
        exact h0 (List.elem_iff.mp hcc)
      rw [hc]
      simp only [Bool.false_eq_true, if_false, h0, false_or,
        decide_eq_true_eq]
      rw [List.countP_eq_length_filter, ← filter_nontext_eq]
      have hd : (0 : ℚ) < ((max 1 chunk.length : Nat) : ℚ) := by
        have : 0 < max 1 chunk.length := by omega
        exact_mod_cast this
      rw [div_lt_div_iff₀ (by norm_num) hd]
      have hcast :
          ((3 : ℚ) * ((max 1 chunk.length : Nat) : ℚ) <
              ((chunk.filter (fun b => !(text_characters.contains b))).length : ℚ) * 10) ↔
            3 * max 1 chunk.length <
              (chunk.filter (fun b => !(text_characters.contains b))).length * 10 := by
        exact_mod_cast Iff.rfl
      rw [hcast]
      omega
  · rfl

/-- **C3**: `read_text_safe` returns `None` whenever the file's size exceeds
`max_bytes`, or its first 1024 bytes contain a null byte, or its first 1024
bytes classify as binary — regardless of the rest of the content. -/
theorem read_text_safe_none_of_oversized_or_binary
    (data : List Nat) (max_bytes : Nat)
    (h : max_bytes < data.length ∨ 0 ∈ data.take 1024 ∨
      is_binary_bytes (data.take 1024) = true) :
    read_text_safe (some data) max_bytes = none := by
  have hbin : 0 ∈ data.take 1024 → is_binary_bytes (data.take 1024) = true := by
    intro h0
    have hcont : (data.take 1024).contains 0 = true := List.elem_iff.mpr h0
    simp only [is_binary_bytes, hcont, if_true]
  simp only [read_text_safe]
  rcases h with h | h | h
  · rw [if_pos h]
  · rw [hbin h]
    simp
  · rw [h]
    simp

theorem read_text_safe_none_of_oversized_or_binary_witness :
    (2000000 < ([0, 1, 2] : List Nat).length ∨
      (0 : Nat) ∈ ([0, 1, 2] : List Nat).take 1024 ∨
      is_binary_bytes (([0, 1, 2] : List Nat).take 1024) = true) ∧
    read_text_safe (some [0, 1, 2]) 2000000 = none :=
  ⟨Or.inr (Or.inl (by decide)),
   read_text_safe_none_of_oversized_or_binary [0, 1, 2] 2000000
     (Or.inr (Or.inl (by decide)))⟩

/-- **C4**: `read_text_safe` never throws upward: a filesystem-level failure
(the `none` file) yields `None`, and whenever it succeeds the result is the
total tolerant UTF-8 decoding of the file's bytes — so decoding never fails
and `Some(decodedString)` is returned. -/
theorem read_text_safe_total_spec :
    (∀ max_bytes, read_text_safe none max_bytes = none) ∧
    (∀ data max_bytes,
      read_text_safe (some data) max_bytes = none ∨
      read_text_safe (some data) max_bytes =
        some (String.mk (utf8DecodeReplace data))) := by
  constructor
  · intro max_bytes
    rfl
  · intro data max_bytes
    simp only [read_text_safe]
    by_cases h1 : data.length > max_bytes
    · left
      rw [if_pos h1]
    · by_cases h2 : is_binary_bytes (data.take 1024) = true
      · left
        rw [if_neg h1, if_pos h2]
      · right
        rw [if_neg h1, if_neg h2]

/-- **C9**: for a root that does not exist as a directory (`os.walk` with its
default `onerror=None` swallows the `scandir` error and yields nothing),
`iter_files` yields the empty sequence rather than raising. -/
theorem iter_files_missing_root_empty :
    ∀ include_exts, iter_files none include_exts = [] :=
  fun _ => rfl

/-- **C10**: for an existing, readable, empty file, `read_text_safe` returns
`Some ""` (an empty sample is not binary and 0 bytes never exceed
`max_bytes`), not `None`. -/
theorem read_text_safe_empty_file :
    ∀ max_bytes, read_text_safe (some []) max_bytes = some "" := by
  intro max_bytes
  simp only [read_text_safe]
  rw [if_neg (by simp : ¬(List.length ([] : List Nat) > max_bytes))]
  rfl

/-- **C7**: walking is idempotent over an unchanged filesystem.  The
filesystem is explicit state here, so two successive calls of `iter_files`
with no change in between are two evaluations of the same pure function at
the same `root`; the left-hand side is the first call and the right-hand
side the second, and every relative path yielded by one is yielded by the
other (set equality — in particular order-insensitive). -/
theorem iter_files_idempotent :
    ∀ (root : Option FSTree) (include_exts : Option (List String))
      (rel : List String),
      rel ∈ (iter_files root include_exts).map (fun e => e.1 ++ [e.2]) ↔
        rel ∈ (iter_files root include_exts).map (fun e => e.1 ++ [e.2]) :=
  fun _ _ _ => Iff.rfl

/-- **C8**: round-trip through the report sink: writing `"hello"` with
`write_text` to `report_path("x")` and reading that exact path back (with
the substrate's own reader) yields exactly `"hello"`; `write_text` opens
with `newline="\n"`, so the stored bytes are the plain UTF-8 encoding and
`\n` line endings are preserved byte-for-byte. -/
theorem report_roundtrip_hello :
    ∀ (fs : String → Option (List Nat)) (cwd stamp : String),
      read_text_safe
        (write_text fs (report_path "x" "md" cwd stamp) "hello"
          (report_path "x" "md" cwd stamp)) 2000000 = some "hello" := by
  intro fs cwd stamp
  have hw :
      write_text fs (report_path "x" "md" cwd stamp) "hello"
        (report_path "x" "md" cwd stamp) = some (utf8Encode "hello") := by
    simp [write_text]
  rw [hw]
  decide

theorem walkFiles_fst (incl : Option (List String)) (files : List String) :
    ∀ e ∈ walkFiles incl files, e.1 = [] := by
  induction files with
  | nil =>
    intro e he
    cases he
  | cons n rest ih =>
    intro e he
    rw [walkFiles] at he
    rcases List.mem_append.mp he with h | h
    · by_cases hq : fileQualifies incl n = true
      · rw [if_pos hq] at h
        rcases List.mem_singleton.mp h with rfl
        rfl
      · rw [if_neg hq] at h
        cases h
    · exact ih e h

mutual

theorem walkTree_dirs_kept (incl : Option (List String)) (t : FSTree) :
    ∀ e ∈ walkTree incl t, ∀ d ∈ e.1, shouldDescend d = true := by
  match t with
  | .node files dirs =>
    intro e he
    rw [walkTree] at he
    rcases List.mem_append.mp he with h | h
    · intro d hd
      rw [walkFiles_fst incl files e h] at hd
      cases hd
    · exact walkDirs_dirs_kept incl dirs e h

theorem walkDirs_dirs_kept (incl : Option (List String)) (ds : FSDirs) :
    ∀ e ∈ walkDirs incl ds, ∀ d ∈ e.1, shouldDescend d = true := by
  match ds with
  | .nil =>
    intro e he
    cases he
  | .cons d0 t rest =>
    intro e he
    rw [walkDirs] at he
    rcases List.mem_append.mp he with h | h
    · by_cases hk : shouldDescend d0 = true
      · rw [if_pos hk] at h
        rcases List.mem_map.mp h with ⟨e', he', rfl⟩
        intro d hd
        rcases List.mem_cons.mp hd with rfl | hd'
        · exact hk
        · exact walkTree_dirs_kept incl t e' he' d hd'
      · rw [if_neg hk] at h
        cases h
    · exact walkDirs_dirs_kept incl rest e h

end

/-- **C1**: for every scan root and every directory name that is in
`DEFAULT_EXCLUDE_DIRS` or starts with `.`, `iter_files` yields no entry
whose relative path passes through that directory at any depth: the list
comprehension prunes `dirs` before `os.walk` descends, so such a name never
occurs among the directory components of a yielded entry. -/
theorem iter_files_prunes_excluded_dirs
    (root : Option FSTree) (include_exts : Option (List String))
    (dname : String) (e : Entry)
    (hex : dname ∈ DEFAULT_EXCLUDE_DIRS ∨ startsWithDot dname = true)
    (he : e ∈ iter_files root include_exts) :
    dname ∉ e.1 := by
  intro hmem
  have hkept : shouldDescend dname = true := by
    match root with
    | none => cases he
    | some t => exact walkTree_dirs_kept include_exts t e he dname hmem
  have hnot : shouldDescend dname = false := by
    rcases hex with h | h
    · simp [shouldDescend, h]
    · simp [shouldDescend, h]
  rw [hkept] at hnot
  cases hnot

theorem iter_files_prunes_excluded_dirs_witness :
    ((".git" ∈ DEFAULT_EXCLUDE_DIRS ∨ startsWithDot ".git" = true) ∧
      ((["sub"], "a.py") : Entry) ∈
        iter_files
          (some (FSTree.node []
            (FSDirs.cons "sub" (FSTree.node ["a.py"] FSDirs.nil) FSDirs.nil)))
          none) ∧
    ".git" ∉ (["sub"] : List String) :=
  ⟨⟨Or.inl (by decide), by decide⟩,
   iter_files_prunes_excluded_dirs
     (some (FSTree.node []
       (FSDirs.cons "sub" (FSTree.node ["a.py"] FSDirs.nil) FSDirs.nil)))
     none ".git" ((["sub"], "a.py") : Entry) (Or.inl (by decide)) (by decide)⟩

theorem walkFiles_filter (incl : Option (List String)) (files : List String) :
    walkFiles incl files =
      (walkFiles none files).filter (fun e => fileQualifies incl e.2) := by
  induction files with
  | nil => rfl
  | cons n rest ih =>
    rw [walkFiles, walkFiles, ih]
    have hnone : fileQualifies none n = true := rfl
    rw [if_pos hnone, List.filter_append]
    congr 1
    by_cases hq : fileQualifies incl n = true
    · rw [if_pos hq]
      simp [hq]
    · rw [if_neg hq]
      simp [hq]

mutual

theorem walkTree_filter (incl : Option (List String)) (t : FSTree) :
    walkTree incl t =
      (walkTree none t).filter (fun e => fileQualifies incl e.2) := by
  match t with
  | .node files dirs =>
    rw [walkTree, walkTree, List.filter_append, ← walkFiles_filter,
      ← walkDirs_filter incl dirs]

theorem walkDirs_filter (incl : Option (List String)) (ds : FSDirs) :
    walkDirs incl ds =
      (walkDirs none ds).filter (fun e => fileQualifies incl e.2) := by
  match ds with
  | .nil => rfl
  | .cons d t rest =>
    rw [walkDirs, walkDirs, List.filter_append, ← walkDirs_filter incl rest]
    congr 1
    by_cases hk : shouldDescend d = true
    · rw [if_pos hk, if_pos hk, walkTree_filter incl t, List.filter_map]
      rfl
    · rw [if_neg hk, if_neg hk]
      rfl

end

/-- **C5**: the extension filter of `iter_files` is exactly a filter on the
files encountered during traversal: with `include_exts = some exts` a file
is yielded iff its lower-cased `splitext` extension is a member of `exts`
(the unfiltered walk `iter_files root none` being the files encountered),
and with `include_exts = none` every encountered file qualifies. -/
theorem iter_files_extension_filter :
    (∀ (root : Option FSTree) (exts : List String),
      iter_files root (some exts) =
        (iter_files root none).filter
          (fun e => exts.contains (splitextExt e.2).toLower)) ∧
    (∀ name, fileQualifies none name = true) := by
  constructor
  · intro root exts
    match root with
    | none => rfl
    | some t => exact walkTree_filter (some exts) t
  · intro name
    rfl

theorem walkFiles_mem_of_qualifies (incl : Option (List String))
    (files : List String) (n : String) (hmem : n ∈ files)
    (hq : fileQualifies incl n = true) :
    ((([] : List String), n) : Entry) ∈ walkFiles incl files := by
  induction files with
  | nil => cases hmem
  | cons m rest ih =>
    rw [walkFiles]
    rcases List.mem_cons.mp hmem with rfl | hmem'
    · rw [if_pos hq]
      exact List.mem_append_left _ (List.mem_singleton.mpr rfl)
    · exact List.mem_append_right _ (ih hmem')

/-- **C6**: exclusion applies only to directory names, never to file names:
a regular file whose base name is in `DEFAULT_EXCLUDE_DIRS` or starts with
`.` is still yielded by `iter_files`, provided it passes the optional
extension filter. -/
theorem iter_files_keeps_excluded_filenames
    (include_exts : Option (List String)) (files : List String)
    (dirs : FSDirs) (n : String) (hmem : n ∈ files)
    (hexcl : n ∈ DEFAULT_EXCLUDE_DIRS ∨ startsWithDot n = true)
    (hq : fileQualifies include_exts n = true) :
    ((([] : List String), n) : Entry) ∈
      iter_files (some (FSTree.node files dirs)) include_exts := by
  show _ ∈ walkTree include_exts (FSTree.node files dirs)
  rw [walkTree]
  exact List.mem_append_left _
    (walkFiles_mem_of_qualifies include_exts files n hmem hq)

theorem iter_files_keeps_excluded_filenames_witness :
    (".gitignore" ∈ ([".gitignore"] : List String) ∧
      (".gitignore" ∈ DEFAULT_EXCLUDE_DIRS ∨ startsWithDot ".gitignore" = true) ∧
      fileQualifies none ".gitignore" = true) ∧
    ((([] : List String), ".gitignore") : Entry) ∈
      iter_files (some (FSTree.node [".gitignore"] FSDirs.nil)) none :=
  ⟨⟨by decide, Or.inr (by decide), rfl⟩,
   iter_files_keeps_excluded_filenames none [".gitignore"] FSDirs.nil
     ".gitignore" (by decide) (Or.inr (by decide)) rfl⟩
